import Mathlib

/-!
# Verification of the RAPIDS grid-converter / DBSCAN pipeline

Shallow embedding of the two notebooks:

* `1-08_grid_converter_dask.ipynb`: the user-defined function
  `latlong2osgbgrid_dask`, a Transverse Mercator projection applied
  per dataframe partition via `map_partitions`.
* `2-04_DBSCAN.ipynb`: selection of the infected sub-dataframe and
  density-based clustering of its (northing, easting) coordinates.

The cupy kernel operates on float64 vectors by elementwise broadcast
arithmetic; the embedding models the broadcast pipeline as the
elementwise application of a scalar kernel `osgb_point` over the
real numbers, with `List.zipWith` playing the role of the broadcast.
-/

namespace GridConverter

/-- Scalar core of `latlong2osgbgrid_dask` (cells of notebook
`1-08_grid_converter_dask.ipynb`): the per-point value computed by the
vectorized cupy code, translated literally from the source body.
All broadcast array operations of the source act elementwise, so the
per-point formula is the source formula read at one coordinate. -/
noncomputable def osgb_point (input_degrees : Bool) (lat_in long_in : ℝ) : ℝ × ℝ :=
  let lat := if input_degrees then lat_in * Real.pi / 180 else lat_in
  let long := if input_degrees then long_in * Real.pi / 180 else long_in
  let a : ℝ := 6377563.396
  let b : ℝ := 6356256.909
  let e2 := (a ^ 2 - b ^ 2) / a ^ 2
  let N0 : ℝ := -100000
  let E0 : ℝ := 400000
  let F0 : ℝ := 0.9996012717
  let phi0 := 49 * Real.pi / 180
  let lambda0 := (-2) * Real.pi / 180
  let sinlat := Real.sin lat
  let coslat := Real.cos lat
  let tanlat := Real.tan lat
  let latdiff := lat - phi0
  let longdiff := long - lambda0
  let n := (a - b) / (a + b)
  let nu := a * F0 * (1 - e2 * sinlat ^ 2) ^ (-0.5 : ℝ)
  let rho := a * F0 * (1 - e2) * (1 - e2 * sinlat ^ 2) ^ (-1.5 : ℝ)
  let eta2 := nu / rho - 1
  let M := b * F0 * ((1 + n + 5 / 4 * (n ^ 2 + n ^ 3)) * latdiff -
    (3 * (n + n ^ 2) + 21 / 8 * n ^ 3) * Real.sin latdiff * Real.cos (lat + phi0) +
    15 / 8 * (n ^ 2 + n ^ 3) * Real.sin (2 * latdiff) * Real.cos (2 * (lat + phi0)) -
    35 / 24 * n ^ 3 * Real.sin (3 * latdiff) * Real.cos (3 * (lat + phi0)))
  let I := M + N0
  let II := nu / 2 * sinlat * coslat
  let III := nu / 24 * sinlat * coslat ^ 3 * (5 - tanlat ^ 2 + 9 * eta2)
  let IIIA := nu / 720 * sinlat * coslat ^ 5 * (61 - 58 * tanlat ^ 2 + tanlat ^ 4)
  let IV := nu * coslat
  let V := nu / 6 * coslat ^ 3 * (nu / rho - Real.tan lat ^ 2)
  let VI := nu / 120 * coslat ^ 5 *
    (5 - 18 * tanlat ^ 2 + tanlat ^ 4 + 14 * eta2 - 58 * tanlat ^ 2 * eta2)
  let northing := I + II * longdiff ^ 2 + III * longdiff ^ 4 + IIIA * longdiff ^ 6
  let easting := E0 + IV * longdiff + V * longdiff ^ 3 + VI * longdiff ^ 5
  (northing, easting)

/-- A cuDF dataframe partition, modelled as an ordered association list
of column name to column values; cuDF keeps column insertion order and
appends newly assigned columns on the right. -/
abbrev Partition := List (String × List ℝ)

/-- Column read `part_df[col]`: the first column with the given name
(cuDF forbids duplicate column names). A missing column reads as the
empty column; the source would raise, and the theorems below assume the
needed columns are present via explicit hypotheses. -/
def getCol : Partition → String → List ℝ
  | [], _ => []
  | kv :: df, c => if kv.1 == c then kv.2 else getCol df c

/-- Column assignment `part_df[col] = v`: overwrite the column in place
when it exists, otherwise append it on the right (cuDF assignment
semantics). -/
def setCol : Partition → String → List ℝ → Partition
  | [], c, v => [(c, v)]
  | kv :: df, c, v => if kv.1 == c then (c, v) :: df else kv :: setCol df c v

/-- The function `latlong2osgbgrid_dask` from `1-08_grid_converter_dask.ipynb`:
reads the latitude and longitude columns of the partition, applies the
Transverse Mercator kernel elementwise (the cupy broadcast pipeline,
embedded as `zipWith osgb_point`), and assigns the resulting `northing`
and `easting` columns to the partition, which is returned. -/
noncomputable def latlong2osgbgrid_dask (part_df : Partition)
    (lat_col long_col : String) (input_degrees : Bool) : Partition :=
  let lat := getCol part_df lat_col
  let long := getCol part_df long_col
  let pts := List.zipWith (osgb_point input_degrees) lat long
  let northing := pts.map Prod.fst
  let easting := pts.map Prod.snd
  setCol (setCol part_df "northing" northing) "easting" easting

theorem getCol_setCol_same (df : Partition) (c : String) (v : List ℝ) :
    getCol (setCol df c v) c = v := by
  induction df with
  | nil => simp [getCol, setCol]
  | cons kv df ih =>
    by_cases h : kv.1 = c
    · simp [getCol, setCol, h]
    · simp only [setCol, beq_iff_eq, h, if_false, getCol, ih]

theorem getCol_setCol_ne (df : Partition) {c c' : String} (h : c' ≠ c)
    (v : List ℝ) : getCol (setCol df c v) c' = getCol df c' := by
  induction df with
  | nil => simp [getCol, setCol, h, Ne.symm h]
  | cons kv df ih =>
    by_cases hk : kv.1 = c
    · simp [getCol, setCol, hk, Ne.symm h]
    · simp only [setCol, beq_iff_eq, hk, if_false, getCol, ih]

/-- C1: for every input partition and every value of the degrees flag,
`latlong2osgbgrid_dask` returns a result with exactly as many rows as
the input, in the same row order: the `northing` and `easting` columns
have the input's length, every pre-existing column is returned
unchanged (same rows, same order), and the i-th northing/easting is
computed solely from the i-th latitude and longitude (1:1 mapping, no
cross-point dependency). -/
theorem latlong2osgbgrid_dask_rowwise
    (part_df : Partition) (lat_col long_col : String) (input_degrees : Bool)
    (lats longs : List ℝ)
    (hlat : getCol part_df lat_col = lats)
    (hlong : getCol part_df long_col = longs)
    (hlen : lats.length = longs.length) :
    (getCol (latlong2osgbgrid_dask part_df lat_col long_col input_degrees) "northing").length
        = lats.length ∧
    (getCol (latlong2osgbgrid_dask part_df lat_col long_col input_degrees) "easting").length
        = lats.length ∧
    (∀ c, c ≠ "northing" → c ≠ "easting" →
      getCol (latlong2osgbgrid_dask part_df lat_col long_col input_degrees) c
        = getCol part_df c) ∧
    ∀ i, i < lats.length →
      (getCol (latlong2osgbgrid_dask part_df lat_col long_col input_degrees) "northing").getD i 0
          = (osgb_point input_degrees (lats.getD i 0) (longs.getD i 0)).1 ∧
      (getCol (latlong2osgbgrid_dask part_df lat_col long_col input_degrees) "easting").getD i 0
          = (osgb_point input_degrees (lats.getD i 0) (longs.getD i 0)).2 := by
  have hne : ("northing" : String) ≠ "easting" := by decide
  simp only [latlong2osgbgrid_dask]
  rw [getCol_setCol_same, getCol_setCol_ne _ hne, getCol_setCol_same, hlat, hlong]
  refine ⟨?_, ?_, ?_, ?_⟩
  · simp [List.length_zipWith, hlen]
  · simp [List.length_zipWith, hlen]
  · intro c hc1 hc2
    rw [getCol_setCol_ne _ hc2, getCol_setCol_ne _ hc1]
  · intro i hi
    have hiz : i < ((List.zipWith (osgb_point input_degrees) lats longs).map Prod.fst).length := by
      simp only [List.length_map, List.length_zipWith]
      omega
    have hiz' : i < ((List.zipWith (osgb_point input_degrees) lats longs).map Prod.snd).length := by
      simp only [List.length_map, List.length_zipWith]
      omega
    have hil : i < longs.length := by omega
    constructor
    · rw [List.getD_eq_getElem _ _ hiz, List.getD_eq_getElem _ _ hi,
        List.getD_eq_getElem _ _ hil]
      simp
    · rw [List.getD_eq_getElem _ _ hiz', List.getD_eq_getElem _ _ hi,
        List.getD_eq_getElem _ _ hil]
      simp

/-- Concrete input for the witnesses: a partition with one row,
latitude 51, longitude 0. -/
noncomputable def dfW : Partition := [("lat", [(51 : ℝ)]), ("long", [(0 : ℝ)])]

/-- Witness for C1 at the one-row partition `dfW`. -/
theorem latlong2osgbgrid_dask_rowwise_witness :
    getCol dfW "lat" = [(51 : ℝ)] ∧ getCol dfW "long" = [(0 : ℝ)] ∧
    ([(51 : ℝ)].length = [(0 : ℝ)].length) ∧
    ((getCol (latlong2osgbgrid_dask dfW "lat" "long" true) "northing").length
        = [(51 : ℝ)].length ∧
    (getCol (latlong2osgbgrid_dask dfW "lat" "long" true) "easting").length
        = [(51 : ℝ)].length ∧
    (∀ c, c ≠ "northing" → c ≠ "easting" →
      getCol (latlong2osgbgrid_dask dfW "lat" "long" true) c = getCol dfW c) ∧
    ∀ i, i < [(51 : ℝ)].length →
      (getCol (latlong2osgbgrid_dask dfW "lat" "long" true) "northing").getD i 0
          = (osgb_point true ([(51 : ℝ)].getD i 0) ([(0 : ℝ)].getD i 0)).1 ∧
      (getCol (latlong2osgbgrid_dask dfW "lat" "long" true) "easting").getD i 0
          = (osgb_point true ([(51 : ℝ)].getD i 0) ([(0 : ℝ)].getD i 0)).2) :=
  ⟨by simp [getCol, dfW], by simp [getCol, dfW], rfl,
   latlong2osgbgrid_dask_rowwise dfW "lat" "long" true [51] [0]
     (by simp [getCol, dfW]) (by simp [getCol, dfW]) rfl⟩

theorem setCol_of_not_mem (df : Partition) {c : String}
    (h : c ∉ df.map Prod.fst) (v : List ℝ) : setCol df c v = df ++ [(c, v)] := by
  induction df with
  | nil => simp [setCol]
  | cons kv df ih =>
    simp only [List.map_cons, List.mem_cons] at h
    push_neg at h
    simp [setCol, beq_iff_eq, Ne.symm h.1, ih h.2]

/-- C10: the transform modifies only the `northing` and `easting`
columns: every pre-existing column other than those two keeps exactly
its original values and row order; re-executing the transform never
alters them (idempotent in effect on the original columns); and when
`northing`/`easting` are not already present, the two new columns are
appended to the right of the partition. -/
theorem latlong2osgbgrid_dask_frame
    (part_df : Partition) (lat_col long_col : String) (input_degrees : Bool)
    (c : String) (hcn : c ≠ "northing") (hce : c ≠ "easting") :
    getCol (latlong2osgbgrid_dask part_df lat_col long_col input_degrees) c
        = getCol part_df c ∧
    getCol (latlong2osgbgrid_dask
        (latlong2osgbgrid_dask part_df lat_col long_col input_degrees)
        lat_col long_col input_degrees) c = getCol part_df c ∧
    ("northing" ∉ part_df.map Prod.fst → "easting" ∉ part_df.map Prod.fst →
      latlong2osgbgrid_dask part_df lat_col long_col input_degrees
        = part_df ++ [("northing",
            (List.zipWith (osgb_point input_degrees) (getCol part_df lat_col)
              (getCol part_df long_col)).map Prod.fst),
           ("easting",
            (List.zipWith (osgb_point input_degrees) (getCol part_df lat_col)
              (getCol part_df long_col)).map Prod.snd)]) := by
  have hframe : ∀ df : Partition,
      getCol (latlong2osgbgrid_dask df lat_col long_col input_degrees) c
        = getCol df c := by
    intro df
    simp only [latlong2osgbgrid_dask]
    rw [getCol_setCol_ne _ hce, getCol_setCol_ne _ hcn]
  refine ⟨hframe part_df, by rw [hframe, hframe], ?_⟩
  intro hn he
  simp only [latlong2osgbgrid_dask]
  rw [setCol_of_not_mem _ hn, setCol_of_not_mem, List.append_assoc]
  · rfl
  · simp only [List.map_append, List.mem_append]
    push_neg
    exact ⟨he, by simp⟩

/-- Witness for C10: the original `lat` column of the one-row partition
`dfW` is untouched by one or two applications of the transform, and the
new columns are appended on the right. -/
theorem latlong2osgbgrid_dask_frame_witness :
    ("lat" : String) ≠ "northing" ∧ ("lat" : String) ≠ "easting" ∧
    (getCol (latlong2osgbgrid_dask dfW "lat" "long" true) "lat" = getCol dfW "lat" ∧
    getCol (latlong2osgbgrid_dask (latlong2osgbgrid_dask dfW "lat" "long" true)
        "lat" "long" true) "lat" = getCol dfW "lat" ∧
    ("northing" ∉ dfW.map Prod.fst → "easting" ∉ dfW.map Prod.fst →
      latlong2osgbgrid_dask dfW "lat" "long" true
        = dfW ++ [("northing",
            (List.zipWith (osgb_point true) (getCol dfW "lat")
              (getCol dfW "long")).map Prod.fst),
           ("easting",
            (List.zipWith (osgb_point true) (getCol dfW "lat")
              (getCol dfW "long")).map Prod.snd)])) :=
  ⟨by decide, by decide,
   latlong2osgbgrid_dask_frame dfW "lat" "long" true "lat" (by decide) (by decide)⟩

/-- C3: projecting the true origin (49°N, 2°W, degrees input) yields
exactly the false northing N0 = -100000 and the false easting
E0 = 400000, hence trivially within 1e-6 relative tolerance: at the
origin `latdiff` and `longdiff` are both zero, so the meridional-arc
series and all correction terms vanish. -/
theorem osgb_point_true_origin :
    osgb_point true 49 (-2) = (-100000, 400000) ∧
    |(osgb_point true 49 (-2)).1 - (-100000)| ≤ 1e-6 * 100000 ∧
    |(osgb_point true 49 (-2)).2 - 400000| ≤ 1e-6 * 400000 := by
  have h : osgb_point true 49 (-2) = (-100000, 400000) := by
    simp only [osgb_point]
    norm_num
  refine ⟨h, ?_, ?_⟩ <;> rw [h] <;> norm_num

/-- Written from the spec's words (section 4.1 algorithm and the
formulas quoted in the claim): degrees are converted to radians by
multiplying by pi/180; `e2 = (a^2-b^2)/a^2`; `n = (a-b)/(a+b)`;
`nu = a*F0*(1-e2*sin^2 lat)^(-1/2)`;
`rho = a*F0*(1-e2)*(1-e2*sin^2 lat)^(-3/2)`; `eta2 = nu/rho - 1`;
`M` is the fourth-order meridional-arc series in `n`; `I..VI` are the
classical OSGB36 correction terms; and
`northing = I + II*longdiff^2 + III*longdiff^4 + IIIA*longdiff^6`,
`easting = E0 + IV*longdiff + V*longdiff^3 + VI*longdiff^5`.
Kept as a second definition, to be compared with the source-derived
`osgb_point`. -/
noncomputable def projectSpec_point (inputIsDegrees : Bool) (lat_in long_in : ℝ) : ℝ × ℝ :=
  let lat := if inputIsDegrees then lat_in * (Real.pi / 180) else lat_in
  let long := if inputIsDegrees then long_in * (Real.pi / 180) else long_in
  let a : ℝ := 6377563.396
  let b : ℝ := 6356256.909
  let e2 := (a ^ 2 - b ^ 2) / a ^ 2
  let N0 : ℝ := -100000
  let E0 : ℝ := 400000
  let F0 : ℝ := 0.9996012717
  let phi0 := 49 * (Real.pi / 180)
  let lambda0 := -(2 * (Real.pi / 180))
  let sinlat := Real.sin lat
  let coslat := Real.cos lat
  let tanlat := Real.tan lat
  let latdiff := lat - phi0
  let longdiff := long - lambda0
  let n := (a - b) / (a + b)
  let nu := a * F0 * (1 - e2 * sinlat ^ 2) ^ (-(1 / 2) : ℝ)
  let rho := a * F0 * (1 - e2) * (1 - e2 * sinlat ^ 2) ^ (-(3 / 2) : ℝ)
  let eta2 := nu / rho - 1
  let M := b * F0 *
    ((1 + n + 5 / 4 * n ^ 2 + 5 / 4 * n ^ 3) * latdiff -
     (3 * n + 3 * n ^ 2 + 21 / 8 * n ^ 3) * Real.sin latdiff * Real.cos (lat + phi0) +
     (15 / 8 * n ^ 2 + 15 / 8 * n ^ 3) * Real.sin (2 * latdiff) * Real.cos (2 * (lat + phi0)) -
     35 / 24 * n ^ 3 * Real.sin (3 * latdiff) * Real.cos (3 * (lat + phi0)))
  let I := M + N0
  let II := nu / 2 * sinlat * coslat
  let III := nu / 24 * sinlat * coslat ^ 3 * (5 - tanlat ^ 2 + 9 * eta2)
  let IIIA := nu / 720 * sinlat * coslat ^ 5 * (61 - 58 * tanlat ^ 2 + tanlat ^ 4)
  let IV := nu * coslat
  let V := nu / 6 * coslat ^ 3 * (nu / rho - tanlat ^ 2)
  let VI := nu / 120 * coslat ^ 5 *
    (5 - 18 * tanlat ^ 2 + tanlat ^ 4 + 14 * eta2 - 58 * tanlat ^ 2 * eta2)
  let northing := I + II * longdiff ^ 2 + III * longdiff ^ 4 + IIIA * longdiff ^ 6
  let easting := E0 + IV * longdiff + V * longdiff ^ 3 + VI * longdiff ^ 5
  (northing, easting)

set_option maxHeartbeats 4000000 in
/-- C4: for every input point and flag value, the source kernel computes
northing and easting exactly by the closed-form Transverse Mercator
series stated in the spec (`projectSpec_point`). -/
theorem osgb_point_eq_spec (input_degrees : Bool) (lat long : ℝ) :
    osgb_point input_degrees lat long = projectSpec_point input_degrees lat long := by
  have h05 : (-0.5 : ℝ) = -(1 / 2) := by norm_num
  have h15 : (-1.5 : ℝ) = -(3 / 2) := by norm_num
  simp only [osgb_point, projectSpec_point, h05, h15, Prod.mk.injEq]
  cases input_degrees <;>
    simp only [Bool.false_eq_true, if_false, if_true] <;>
    constructor <;> ring_nf

/-- Modelled from the spec: the `ProjectionParameters` configuration
record {semiMajorAxis a, semiMinorAxis b, falseNorthing N0, falseEasting
E0, scaleFactor F0, originLatitude phi0, originLongitude lambda0}. -/
structure ProjectionParameters where
  semiMajorAxis : ℝ
  semiMinorAxis : ℝ
  falseNorthing : ℝ
  falseEasting : ℝ
  scaleFactor : ℝ
  originLatitude : ℝ
  originLongitude : ℝ

/-- The canonical OSGB36 / National Grid parameter instance (the values
hard-coded in the source kernel's body). -/
noncomputable def OSGB36 : ProjectionParameters where
  semiMajorAxis := 6377563.396
  semiMinorAxis := 6356256.909
  falseNorthing := -100000
  falseEasting := 400000
  scaleFactor := 0.9996012717
  originLatitude := 49 * Real.pi / 180
  originLongitude := (-2) * Real.pi / 180

/-- Modelled from the spec: the projector as the spec's configuration
surface demands it — the same Transverse Mercator kernel, but with the
ellipsoid/projection-origin parameters taken from an explicit
`ProjectionParameters` argument instead of constants in the body. -/
noncomputable def project_params (p : ProjectionParameters)
    (inputIsDegrees : Bool) (lat_in long_in : ℝ) : ℝ × ℝ :=
  let lat := if inputIsDegrees then lat_in * Real.pi / 180 else lat_in
  let long := if inputIsDegrees then long_in * Real.pi / 180 else long_in
  let a := p.semiMajorAxis
  let b := p.semiMinorAxis
  let e2 := (a ^ 2 - b ^ 2) / a ^ 2
  let N0 := p.falseNorthing
  let E0 := p.falseEasting
  let F0 := p.scaleFactor
  let phi0 := p.originLatitude
  let lambda0 := p.originLongitude
  let sinlat := Real.sin lat
  let coslat := Real.cos lat
  let tanlat := Real.tan lat
  let latdiff := lat - phi0
  let longdiff := long - lambda0
  let n := (a - b) / (a + b)
  let nu := a * F0 * (1 - e2 * sinlat ^ 2) ^ (-0.5 : ℝ)
  let rho := a * F0 * (1 - e2) * (1 - e2 * sinlat ^ 2) ^ (-1.5 : ℝ)
  let eta2 := nu / rho - 1
  let M := b * F0 * ((1 + n + 5 / 4 * (n ^ 2 + n ^ 3)) * latdiff -
    (3 * (n + n ^ 2) + 21 / 8 * n ^ 3) * Real.sin latdiff * Real.cos (lat + phi0) +
    15 / 8 * (n ^ 2 + n ^ 3) * Real.sin (2 * latdiff) * Real.cos (2 * (lat + phi0)) -
    35 / 24 * n ^ 3 * Real.sin (3 * latdiff) * Real.cos (3 * (lat + phi0)))
  let I := M + N0
  let II := nu / 2 * sinlat * coslat
  let III := nu / 24 * sinlat * coslat ^ 3 * (5 - tanlat ^ 2 + 9 * eta2)
  let IIIA := nu / 720 * sinlat * coslat ^ 5 * (61 - 58 * tanlat ^ 2 + tanlat ^ 4)
  let IV := nu * coslat
  let V := nu / 6 * coslat ^ 3 * (nu / rho - Real.tan lat ^ 2)
  let VI := nu / 120 * coslat ^ 5 *
    (5 - 18 * tanlat ^ 2 + tanlat ^ 4 + 14 * eta2 - 58 * tanlat ^ 2 * eta2)
  let northing := I + II * longdiff ^ 2 + III * longdiff ^ 4 + IIIA * longdiff ^ 6
  let easting := E0 + IV * longdiff + V * longdiff ^ 3 + VI * longdiff ^ 5
  (northing, easting)

/-- A configuration that substitutes a different false northing (0
instead of -100000), keeping everything else OSGB36. -/
noncomputable def altParams : ProjectionParameters :=
  { OSGB36 with falseNorthing := 0 }

/-- Counterexample to C5 as stated: the source kernel does not take its
projection parameters from any supplied configuration — they are
hard-coded in its body — so it cannot agree with the parametric
projector under substitution of a different ellipsoid/origin
configuration. Concretely, at the true origin (49, -2, degrees) the
kernel produces northing -100000 while the parametric projector under
`altParams` (false northing 0) produces northing 0. -/
theorem osgb_point_not_parametric :
    ¬ ∀ (p : ProjectionParameters) (input_degrees : Bool) (lat long : ℝ),
        osgb_point input_degrees lat long = project_params p input_degrees lat long := by
  intro hcl
  have h1 : (osgb_point true 49 (-2)).1 = -100000 := by
    simp only [osgb_point]
    norm_num
  have h2 : (project_params altParams true 49 (-2)).1 = 0 := by
    simp only [project_params, altParams, OSGB36]
    norm_num
  rw [hcl altParams true 49 (-2), h2] at h1
  norm_num at h1

/-- C5 amended: the projection parameters are hard-coded OSGB36
constants inside the source kernel, which therefore coincides with the
spec's parametric projector at exactly the canonical OSGB36 instance
(it is not configured through any explicit parameter argument). -/
theorem osgb_point_eq_params_OSGB36 (input_degrees : Bool) (lat long : ℝ) :
    osgb_point input_degrees lat long
      = project_params OSGB36 input_degrees lat long := rfl

/-- Modelled from the spec: `mapPartitions(dataset, fn)` — the
partition-map executor applies the pure per-partition transform to
every partition of the dataset independently (the notebook's
`ddf.map_partitions(latlong2osgbgrid_dask)` call; `map_partitions`
itself is dask library code, not part of this repository). -/
def mapPartitions (fn : Partition → Partition) (dataset : List Partition) : List Partition :=
  dataset.map fn

/-- Column-wise concatenation of two schema-aligned partitions: the
dataset obtained by stacking the rows of `p` above the rows of `q`. -/
def joinDF : Partition → Partition → Partition
  | [], _ => []
  | _ :: _, [] => []
  | kv :: df, kw :: dg => (kv.1, kv.2 ++ kw.2) :: joinDF df dg

/-- k-way column-wise concatenation of a nonempty list of partitions:
the single-partition view of the whole dataset. -/
def joinAll (p : Partition) (ps : List Partition) : Partition := ps.foldl joinDF p

theorem getCol_joinDF (p : Partition) {q : Partition}
    (h : p.map Prod.fst = q.map Prod.fst) (c : String) :
    getCol (joinDF p q) c = getCol p c ++ getCol q c := by
  induction p generalizing q with
  | nil =>
    cases q with
    | nil => simp [joinDF, getCol]
    | cons kw dg => simp at h
  | cons kv df ih =>
    cases q with
    | nil => simp at h
    | cons kw dg =>
      simp only [List.map_cons, List.cons_inj_right, List.cons.injEq] at h
      by_cases hc : kv.1 = c
      · simp [joinDF, getCol, hc, ← h.1]
      · simp [joinDF, getCol, hc, ← h.1, ih h.2]

theorem setCol_joinDF (p : Partition) {q : Partition}
    (h : p.map Prod.fst = q.map Prod.fst) (c : String) (v w : List ℝ) :
    setCol (joinDF p q) c (v ++ w) = joinDF (setCol p c v) (setCol q c w) := by
  induction p generalizing q with
  | nil =>
    cases q with
    | nil => simp [joinDF, setCol]
    | cons kw dg => simp at h
  | cons kv df ih =>
    cases q with
    | nil => simp at h
    | cons kw dg =>
      simp only [List.map_cons, List.cons.injEq] at h
      by_cases hc : kv.1 = c
      · simp [joinDF, setCol, hc, ← h.1]
      · simp [joinDF, setCol, hc, ← h.1, ih h.2]

theorem map_fst_setCol_congr (p : Partition) {q : Partition}
    (h : p.map Prod.fst = q.map Prod.fst) (c : String) (v w : List ℝ) :
    (setCol p c v).map Prod.fst = (setCol q c w).map Prod.fst := by
  induction p generalizing q with
  | nil =>
    cases q with
    | nil => simp [setCol]
    | cons kw dg => simp at h
  | cons kv df ih =>
    cases q with
    | nil => simp at h
    | cons kw dg =>
      simp only [List.map_cons, List.cons.injEq] at h
      by_cases hc : kv.1 = c
      · simp [setCol, hc, ← h.1, h.2]
      · simp [setCol, hc, ← h.1, ih h.2]

theorem map_fst_joinDF (p : Partition) {q : Partition}
    (h : p.map Prod.fst = q.map Prod.fst) :
    (joinDF p q).map Prod.fst = p.map Prod.fst := by
  induction p generalizing q with
  | nil =>
    cases q with
    | nil => simp [joinDF]
    | cons kw dg => simp at h
  | cons kv df ih =>
    cases q with
    | nil => simp at h
    | cons kw dg =>
      simp only [List.map_cons, List.cons.injEq] at h
      simp [joinDF, ih h.2]

/-- The per-partition transform commutes with stacking two
schema-aligned partitions. -/
theorem kernel_joinDF (lat_col long_col : String) (input_degrees : Bool)
    (p : Partition) {q : Partition} (h : p.map Prod.fst = q.map Prod.fst)
    (hp : (getCol p lat_col).length = (getCol p long_col).length) :
    latlong2osgbgrid_dask (joinDF p q) lat_col long_col input_degrees
      = joinDF (latlong2osgbgrid_dask p lat_col long_col input_degrees)
               (latlong2osgbgrid_dask q lat_col long_col input_degrees) := by
  simp only [latlong2osgbgrid_dask]
  rw [getCol_joinDF p h lat_col, getCol_joinDF p h long_col,
    List.zipWith_append _ _ _ _ _ hp, List.map_append, List.map_append,
    setCol_joinDF p h, setCol_joinDF _ (map_fst_setCol_congr p h _ _ _)]

/-- C8: partition invariance — running the grid-conversion transform on
the whole dataset as one partition gives exactly the same dataset
(column-wise, hence the same multiset of output rows) as splitting it
into k >= 1 schema-aligned partitions, mapping the transform over each
partition with `mapPartitions`, and recombining. -/
theorem mapPartitions_partition_invariance
    (lat_col long_col : String) (input_degrees : Bool)
    (p : Partition) (ps : List Partition)
    (hschema : ∀ q ∈ p :: ps, q.map Prod.fst = p.map Prod.fst)
    (hlen : ∀ q ∈ p :: ps, (getCol q lat_col).length = (getCol q long_col).length) :
    latlong2osgbgrid_dask (joinAll p ps) lat_col long_col input_degrees
      = joinAll (latlong2osgbgrid_dask p lat_col long_col input_degrees)
          (mapPartitions
            (fun df => latlong2osgbgrid_dask df lat_col long_col input_degrees) ps) := by
  induction ps generalizing p with
  | nil => rfl
  | cons q ps ih =>
    have hq_schema : q.map Prod.fst = p.map Prod.fst := hschema q (by simp)
    have hp_len : (getCol p lat_col).length = (getCol p long_col).length :=
      hlen p (by simp)
    have hq_len : (getCol q lat_col).length = (getCol q long_col).length :=
      hlen q (by simp)
    have hjoin_schema : (joinDF p q).map Prod.fst = p.map Prod.fst :=
      map_fst_joinDF p hq_schema.symm
    have hstep := ih (joinDF p q)
      (by
        intro r hr
        rcases List.mem_cons.mp hr with rfl | hr
        · rfl
        · rw [hschema r (List.mem_cons_of_mem _ (List.mem_cons_of_mem _ hr)), hjoin_schema])
      (by
        intro r hr
        rcases List.mem_cons.mp hr with rfl | hr
        · rw [getCol_joinDF p hq_schema.symm, getCol_joinDF p hq_schema.symm,
            List.length_append, List.length_append, hp_len, hq_len]
        · exact hlen r (List.mem_cons_of_mem _ (List.mem_cons_of_mem _ hr)))
    show latlong2osgbgrid_dask (joinAll (joinDF p q) ps) lat_col long_col input_degrees = _
    rw [hstep, kernel_joinDF lat_col long_col input_degrees p hq_schema.symm hp_len]
    rfl

/-- Second concrete partition for the C8 witness, schema-aligned with
`dfW`. -/
noncomputable def dfW2 : Partition := [("lat", [(52 : ℝ)]), ("long", [(1 : ℝ)])]

/-- Witness for C8: splitting a two-row dataset into the two one-row
partitions `dfW` and `dfW2`. -/
theorem mapPartitions_partition_invariance_witness :
    (∀ q ∈ dfW :: [dfW2], q.map Prod.fst = dfW.map Prod.fst) ∧
    (∀ q ∈ dfW :: [dfW2], (getCol q "lat").length = (getCol q "long").length) ∧
    latlong2osgbgrid_dask (joinAll dfW [dfW2]) "lat" "long" true
      = joinAll (latlong2osgbgrid_dask dfW "lat" "long" true)
          (mapPartitions (fun df => latlong2osgbgrid_dask df "lat" "long" true) [dfW2]) := by
  have h1 : ∀ q ∈ dfW :: [dfW2], q.map Prod.fst = dfW.map Prod.fst := by
    intro q hq
    rcases List.mem_cons.mp hq with rfl | hq
    · rfl
    · rcases List.mem_cons.mp hq with rfl | hq
      · rfl
      · cases hq
  have h2 : ∀ q ∈ dfW :: [dfW2], (getCol q "lat").length = (getCol q "long").length := by
    intro q hq
    rcases List.mem_cons.mp hq with rfl | hq
    · rfl
    · rcases List.mem_cons.mp hq with rfl | hq
      · rfl
      · cases hq
  exact ⟨h1, h2, mapPartitions_partition_invariance "lat" "long" true dfW [dfW2] h1 h2⟩

end GridConverter

namespace DBSCAN

/-- A 2D grid point (northing, easting), with rational coordinates so
that every distance comparison is decidable and executable. -/
abbrev Pt := ℚ × ℚ

/-- Squared Euclidean distance between two grid points. -/
def sqDist (p q : Pt) : ℚ := (p.1 - q.1) ^ 2 + (p.2 - q.2) ^ 2

/-- Modelled from the spec: `rangeQuery(point, eps)` — the set of point
indices within Euclidean distance <= eps of the query point (inclusive
boundary), phrased decidably as squared distance <= eps^2 (equivalent
for eps >= 0). The clustering implementation `cuml.DBSCAN` consumed by
`2-04_DBSCAN.ipynb` is library code, not part of this repository. -/
def rangeQuery (pts : List Pt) (eps : ℚ) (p : Pt) : List ℕ :=
  (List.range pts.length).filter (fun j => sqDist p (pts.getD j (0, 0)) ≤ eps ^ 2)

/-- Modelled from the spec: the DBSCAN per-point label state machine
{Unvisited, Noise, Assigned(clusterId)}. -/
inductive PLabel where
  | unvisited : PLabel
  | noise : PLabel
  | assigned : ℕ → PLabel
deriving DecidableEq

/-- A label that cluster expansion may still absorb: Unvisited or Noise
(not yet assigned to any cluster). -/
def isFree : PLabel → Bool
  | .assigned _ => false
  | _ => true

/-- Absorb index `j` into cluster `c` unless it is already assigned:
unvisited and noise points are (re)labeled — a previously-Noise point
absorbed into a cluster becomes a border point — while points already
in a cluster keep their first cluster id. -/
def assignFree (labels : List PLabel) (c : ℕ) (j : ℕ) : List PLabel :=
  if isFree (labels.getD j .unvisited) then labels.set j (.assigned c) else labels

/-- Modelled from the spec: a core point has at least `minPts` neighbors
(itself included) within radius eps. -/
def isCore (pts : List Pt) (eps : ℚ) (minPts : ℕ) (j : ℕ) : Bool :=
  decide (minPts ≤ (rangeQuery pts eps (pts.getD j (0, 0))).length)

/-- Modelled from the spec: breadth-first cluster expansion with an
explicit worklist — for each newly added point that is itself a core
point, absorb its unvisited or noise neighbors and continue. `fuel`
bounds the traversal; every point is newly added at most once, so any
fuel of at least `2 * pts.length + 1` lets the worklist drain. -/
def expandCluster (pts : List Pt) (eps : ℚ) (minPts : ℕ) (c : ℕ) :
    ℕ → List ℕ → List PLabel → List PLabel
  | 0, _, labels => labels
  | _ + 1, [], labels => labels
  | fuel + 1, j :: queue, labels =>
    if isCore pts eps minPts j then
      let nbrs := rangeQuery pts eps (pts.getD j (0, 0))
      let fresh := nbrs.filter (fun r => isFree (labels.getD r .unvisited))
      let labels' := fresh.foldl (fun ls r => assignFree ls c r) labels
      expandCluster pts eps minPts c fuel (queue ++ fresh) labels'
    else
      expandCluster pts eps minPts c fuel queue labels

/-- Modelled from the spec: one step of the outer DBSCAN loop at seed
index `i`. Anything but an Unvisited seed is skipped; an Unvisited seed
is range-queried, labeled Noise when its neighborhood is smaller than
`minPts`, and otherwise opens the next unused cluster id, absorbs its
whole neighborhood, and expands breadth-first. -/
def dbscanStep (pts : List Pt) (eps : ℚ) (minPts : ℕ)
    (st : List PLabel × ℕ) (i : ℕ) : List PLabel × ℕ :=
  if st.1.getD i .unvisited = .unvisited then
    let nbrs := rangeQuery pts eps (pts.getD i (0, 0))
    if nbrs.length < minPts then (st.1.set i .noise, st.2)
    else
      let seeded := nbrs.foldl (fun ls r => assignFree ls st.2 r) st.1
      (expandCluster pts eps minPts st.2 (2 * pts.length + 1) nbrs seeded, st.2 + 1)
  else st

/-- Modelled from the spec: `cluster(points, eps, minPts)` — the
behavior of `fit_predict` in `2-04_DBSCAN.ipynb` (`cuml.DBSCAN` is
library code, absent from this repository): visit every point in input
order, and return one integer label per point, -1 for noise and the
dense cluster id (counted up from 0 in discovery order) otherwise. -/
def fit_predict (pts : List Pt) (eps : ℚ) (minPts : ℕ) : List ℤ :=
  let n := pts.length
  let init : List PLabel := List.replicate n .unvisited
  let final := (List.range n).foldl (dbscanStep pts eps minPts) (init, 0)
  final.1.map (fun l => match l with
    | .assigned c => (c : ℤ)
    | _ => -1)

theorem foldl_inv_mem {α β : Type} (P : β → Prop) (f : β → α → β) (l : List α)
    (b : β) (hb : P b) (hf : ∀ b a, a ∈ l → P b → P (f b a)) : P (l.foldl f b) := by
  induction l generalizing b with
  | nil => exact hb
  | cons x xs ih =>
    exact ih (f b x) (hf b x (by simp) hb) (fun b a ha hPb => hf b a (by simp [ha]) hPb)

theorem getD_set_ne (ls : List PLabel) {j j' : ℕ} (v d : PLabel) (h : j' ≠ j) :
    (ls.set j v).getD j' d = ls.getD j' d := by
  by_cases hlt : j' < ls.length
  · rw [List.getD_eq_getElem _ _ (by simpa using hlt), List.getD_eq_getElem _ _ hlt,
      List.getElem_set_ne (Ne.symm h)]
  · rw [List.getD_eq_default _ _ (by simpa using Nat.le_of_not_lt hlt),
      List.getD_eq_default _ _ (Nat.le_of_not_lt hlt)]

theorem length_assignFree (ls : List PLabel) (c j : ℕ) :
    (assignFree ls c j).length = ls.length := by
  unfold assignFree
  split <;> simp

theorem length_foldl_assignFree (rs : List ℕ) (ls : List PLabel) (c : ℕ) :
    (rs.foldl (fun a r => assignFree a c r) ls).length = ls.length := by
  induction rs generalizing ls with
  | nil => rfl
  | cons r rs ih => rw [List.foldl_cons, ih, length_assignFree]

theorem length_expandCluster (pts : List Pt) (eps : ℚ) (minPts c fuel : ℕ)
    (queue : List ℕ) (ls : List PLabel) :
    (expandCluster pts eps minPts c fuel queue ls).length = ls.length := by
  induction fuel generalizing queue ls with
  | zero => rfl
  | succ fuel ih =>
    cases queue with
    | nil => rfl
    | cons j queue =>
      by_cases h : isCore pts eps minPts j = true
      · simp only [expandCluster, h, if_true]
        rw [ih, length_foldl_assignFree]
      · simp only [expandCluster, h]
        rw [if_neg (by simp [h]), ih]

theorem mem_assignFree {ls : List PLabel} {c j : ℕ} {x : PLabel}
    (h : x ∈ assignFree ls c j) : x ∈ ls ∨ x = .assigned c := by
  unfold assignFree at h
  split at h
  · exact List.mem_or_eq_of_mem_set h
  · exact Or.inl h

theorem mem_foldl_assignFree {rs : List ℕ} {ls : List PLabel} {c : ℕ} {x : PLabel}
    (h : x ∈ rs.foldl (fun a r => assignFree a c r) ls) : x ∈ ls ∨ x = .assigned c := by
  induction rs generalizing ls with
  | nil => exact Or.inl h
  | cons r rs ih =>
    rcases ih (by simpa using h) with h' | h'
    · exact mem_assignFree h'
    · exact Or.inr h'

theorem mem_expandCluster {pts : List Pt} {eps : ℚ} {minPts c fuel : ℕ}
    {queue : List ℕ} {ls : List PLabel} {x : PLabel}
    (h : x ∈ expandCluster pts eps minPts c fuel queue ls) :
    x ∈ ls ∨ x = .assigned c := by
  induction fuel generalizing queue ls with
  | zero => exact Or.inl h
  | succ fuel ih =>
    cases queue with
    | nil => exact Or.inl h
    | cons j queue =>
      by_cases hc : isCore pts eps minPts j = true
      · simp only [expandCluster, hc, if_true] at h
        rcases ih h with h' | h'
        · exact mem_foldl_assignFree h'
        · exact Or.inr h'
      · simp only [expandCluster, hc] at h
        rw [if_neg (by simp [hc])] at h
        exact ih h

theorem mem_set_of_ne_getD {ls : List PLabel} {j : ℕ} {x v : PLabel}
    (hx : x ∈ ls) (hne : ls.getD j .unvisited ≠ x) : x ∈ ls.set j v := by
  obtain ⟨m, hm, hmx⟩ := List.getElem_of_mem hx
  have hmj : m ≠ j := by
    rintro rfl
    exact hne (by rw [List.getD_eq_getElem _ _ hm, hmx])
  have hm2 : m < (ls.set j v).length := by simpa using hm
  have : (ls.set j v)[m] = x := by
    rw [List.getElem_set_ne (Ne.symm hmj), hmx]
  exact this ▸ List.getElem_mem hm2

theorem assignFree_preserves_assigned {ls : List PLabel} {c j c' : ℕ}
    (h : PLabel.assigned c' ∈ ls) : PLabel.assigned c' ∈ assignFree ls c j := by
  unfold assignFree
  split
  case isTrue hf =>
    refine mem_set_of_ne_getD h ?_
    intro hcon
    rw [hcon] at hf
    exact Bool.noConfusion hf
  case isFalse => exact h

theorem foldl_assignFree_preserves_assigned {rs : List ℕ} {ls : List PLabel}
    {c c' : ℕ} (h : PLabel.assigned c' ∈ ls) :
    PLabel.assigned c' ∈ rs.foldl (fun a r => assignFree a c r) ls := by
  induction rs generalizing ls with
  | nil => exact h
  | cons r rs ih => exact ih (assignFree_preserves_assigned h)

theorem expandCluster_preserves_assigned {pts : List Pt} {eps : ℚ}
    {minPts c fuel : ℕ} {queue : List ℕ} {ls : List PLabel} {c' : ℕ}
    (h : PLabel.assigned c' ∈ ls) :
    PLabel.assigned c' ∈ expandCluster pts eps minPts c fuel queue ls := by
  induction fuel generalizing queue ls with
  | zero => exact h
  | succ fuel ih =>
    cases queue with
    | nil => exact h
    | cons j queue =>
      by_cases hc : isCore pts eps minPts j = true
      · simp only [expandCluster, hc, if_true]
        exact ih (foldl_assignFree_preserves_assigned h)
      · simp only [expandCluster, hc]
        rw [if_neg (by simp [hc])]
        exact ih h

theorem assignFree_getD_ne {ls : List PLabel} {c j j' : ℕ} (h : j' ≠ j) :
    (assignFree ls c j).getD j' .unvisited = ls.getD j' .unvisited := by
  unfold assignFree
  split
  · exact getD_set_ne ls _ _ h
  · rfl

theorem assignFree_getD_self {ls : List PLabel} {c j : ℕ} (hlt : j < ls.length)
    (hfree : isFree (ls.getD j .unvisited) = true) :
    (assignFree ls c j).getD j .unvisited = .assigned c := by
  rw [assignFree, if_pos hfree, List.getD_eq_getElem _ _ (by simpa using hlt),
    List.getElem_set_self (by simpa using hlt)]

theorem foldl_assignFree_getD_not_mem {rs : List ℕ} {ls : List PLabel} {c j : ℕ}
    (h : j ∉ rs) :
    (rs.foldl (fun a r => assignFree a c r) ls).getD j .unvisited
      = ls.getD j .unvisited := by
  induction rs generalizing ls with
  | nil => rfl
  | cons r rs ih =>
    rw [List.foldl_cons, ih (fun hm => h (List.mem_cons_of_mem _ hm)),
      assignFree_getD_ne (by rintro rfl; exact h (List.mem_cons_self _ _))]

theorem foldl_assignFree_getD_mem {rs : List ℕ} {ls : List PLabel} {c j : ℕ}
    (hnd : rs.Nodup) (hj : j ∈ rs) (hlt : j < ls.length)
    (hfree : isFree (ls.getD j .unvisited) = true) :
    (rs.foldl (fun a r => assignFree a c r) ls).getD j .unvisited
      = .assigned c := by
  induction rs generalizing ls with
  | nil => cases hj
  | cons r rs ih =>
    rcases List.mem_cons.mp hj with rfl | hj'
    · rw [List.foldl_cons,
        foldl_assignFree_getD_not_mem (List.Nodup.not_mem hnd),
        assignFree_getD_self hlt hfree]
    · have hne : j ≠ r := by
        rintro rfl
        exact List.Nodup.not_mem hnd hj'
      rw [List.foldl_cons]
      exact ih (List.Nodup.of_cons hnd) hj'
        (by rw [length_assignFree]; exact hlt)
        (by rw [assignFree_getD_ne hne]; exact hfree)

theorem self_mem_rangeQuery (pts : List Pt) (eps : ℚ) {i : ℕ}
    (hi : i < pts.length) : i ∈ rangeQuery pts eps (pts.getD i (0, 0)) := by
  unfold rangeQuery
  rw [List.mem_filter]
  refine ⟨List.mem_range.mpr hi, ?_⟩
  simp only [decide_eq_true_eq, sqDist, sub_self]
  norm_num
  positivity

/-- The invariant carried through the outer DBSCAN loop: the label list
keeps the input length, every assigned cluster id is below the counter,
and every id below the counter is assigned to at least one point. -/
def Inv (n : ℕ) (st : List PLabel × ℕ) : Prop :=
  st.1.length = n ∧
  (∀ x ∈ st.1, ∀ c, x = .assigned c → c < st.2) ∧
  (∀ c, c < st.2 → PLabel.assigned c ∈ st.1)

theorem dbscanStep_inv (pts : List Pt) (eps : ℚ) (minPts : ℕ)
    (st : List PLabel × ℕ) (i : ℕ) (hi : i < pts.length)
    (h : Inv pts.length st) : Inv pts.length (dbscanStep pts eps minPts st i) := by
  obtain ⟨hlen, hub, hex⟩ := h
  unfold dbscanStep
  by_cases hg : st.1.getD i .unvisited = .unvisited
  case neg => simp only [hg, if_neg]; exact ⟨hlen, hub, hex⟩
  case pos =>
    rw [if_pos hg]
    by_cases hsize : (rangeQuery pts eps (pts.getD i (0, 0))).length < minPts
    · rw [if_pos hsize]
      refine ⟨by simpa using hlen, ?_, ?_⟩
      · intro x hx c hxc
        rcases List.mem_or_eq_of_mem_set hx with hx' | rfl
        · exact hub x hx' c hxc
        · exact absurd hxc (by simp)
      · intro c hc
        exact mem_set_of_ne_getD (hex c hc) (by rw [hg]; exact fun hcon => PLabel.noConfusion hcon)
    · rw [if_neg hsize]
      refine ⟨?_, ?_, ?_⟩
      · rw [length_expandCluster, length_foldl_assignFree]
        exact hlen
      · intro x hx c hxc
        rcases mem_expandCluster hx with hx' | rfl
        · rcases mem_foldl_assignFree hx' with hx'' | rfl
          · exact Nat.lt_succ_of_lt (hub x hx'' c hxc)
          · cases hxc
            exact Nat.lt_succ_self _
        · cases hxc
          exact Nat.lt_succ_self _
      · intro c hc
        rcases Nat.lt_succ_iff_lt_or_eq.mp hc with hc' | rfl
        · exact expandCluster_preserves_assigned
            (foldl_assignFree_preserves_assigned (hex c hc'))
        · apply expandCluster_preserves_assigned
          have hnd : (rangeQuery pts eps (pts.getD i (0, 0))).Nodup :=
            (List.nodup_range _).filter _
          have hmem := self_mem_rangeQuery pts eps hi
          have hgetD := foldl_assignFree_getD_mem (c := st.2) hnd hmem
            (by rw [hlen]; exact hi) (by rw [hg]; rfl)
          have hlt : i < ((rangeQuery pts eps (pts.getD i (0, 0))).foldl
              (fun ls r => assignFree ls st.2 r) st.1).length := by
            rw [length_foldl_assignFree, hlen]
            exact hi
          rw [List.getD_eq_getElem _ _ hlt] at hgetD
          exact hgetD ▸ List.getElem_mem hlt

/-- C6: for every point set and parameters, the clustering returns one
integer label per point in which every entry is either -1 (noise) or a
cluster id in {0, ..., k-1} for the number k of discovered clusters,
and every id in {0, ..., k-1} is used by at least one point: the ids
are dense-enumerated from 0 in discovery order, with no gaps. -/
theorem fit_predict_label_range (pts : List Pt) (eps : ℚ) (minPts : ℕ) :
    ∃ k : ℕ,
      (∀ l ∈ fit_predict pts eps minPts, l = -1 ∨ (0 ≤ l ∧ l < (k : ℤ))) ∧
      ∀ c : ℕ, c < k → ((c : ℤ) ∈ fit_predict pts eps minPts) := by
  have hinv : Inv pts.length ((List.range pts.length).foldl (dbscanStep pts eps minPts)
      (List.replicate pts.length .unvisited, 0)) := by
    apply foldl_inv_mem
    · refine ⟨by simp, ?_, by omega⟩
      intro x hx c hxc
      rw [List.eq_of_mem_replicate hx] at hxc
      cases hxc
    · intro st i hi hst
      exact dbscanStep_inv pts eps minPts st i (List.mem_range.mp hi) hst
  obtain ⟨hlen, hub, hex⟩ := hinv
  refine ⟨((List.range pts.length).foldl (dbscanStep pts eps minPts)
      (List.replicate pts.length .unvisited, 0)).2, ?_, ?_⟩
  · intro l hl
    obtain ⟨x, hx, hxl⟩ := List.mem_map.mp hl
    cases x with
    | unvisited => exact Or.inl hxl.symm
    | noise => exact Or.inl hxl.symm
    | assigned c =>
      have hxl' : l = (c : ℤ) := hxl.symm
      refine Or.inr ⟨?_, ?_⟩
      · rw [hxl']
        exact Int.ofNat_nonneg c
      · rw [hxl']
        exact_mod_cast hub _ hx c rfl
  · intro c hc
    exact List.mem_map.mpr ⟨.assigned c, hex c hc, rfl⟩

theorem filter_range_eq_singleton {n i : ℕ} {p : ℕ → Bool} (hi : i < n)
    (hp : ∀ j < n, (p j = true ↔ j = i)) : (List.range n).filter p = [i] := by
  induction n with
  | zero => omega
  | succ n ih =>
    rw [List.range_succ, List.filter_append]
    by_cases hin : i = n
    · subst hin
      have h1 : (List.range i).filter p = [] := by
        rw [List.filter_eq_nil_iff]
        intro a ha hpa
        have := (hp a (by have := List.mem_range.mp ha; omega)).mp hpa
        have := List.mem_range.mp ha
        omega
      have h2 : List.filter p [i] = [i] := by
        simp [List.filter_cons, (hp i (by omega)).mpr rfl]
      rw [h1, h2, List.nil_append]
    · have h2 : List.filter p [n] = [] := by
        have hpn : ¬ p n = true := fun hpn => hin ((hp n (by omega)).mp hpn).symm
        simp [List.filter_cons, hpn]
      rw [ih (by omega) (fun j hj => hp j (by omega)), h2, List.append_nil]

theorem rangeQuery_isolated {pts : List Pt} {eps : ℚ}
    (hsep : ∀ i < pts.length, ∀ j < pts.length, i ≠ j →
      eps ^ 2 < sqDist (pts.getD i (0, 0)) (pts.getD j (0, 0)))
    {i : ℕ} (hi : i < pts.length) :
    rangeQuery pts eps (pts.getD i (0, 0)) = [i] := by
  unfold rangeQuery
  apply filter_range_eq_singleton hi
  intro j hj
  constructor
  · intro hpj
    by_contra hne
    simp only [decide_eq_true_eq] at hpj
    exact absurd hpj (not_le.mpr (hsep i hi j hj (fun he => hne he.symm)))
  · rintro rfl
    simp only [decide_eq_true_eq, sqDist, sub_self]
    norm_num
    positivity

/-- The invariant for the all-separated case: no point is ever assigned
to any cluster. -/
def AllFree (st : List PLabel × ℕ) : Prop :=
  ∀ x ∈ st.1, x = PLabel.unvisited ∨ x = PLabel.noise

theorem dbscanStep_allFree {pts : List Pt} {eps : ℚ} {minPts : ℕ}
    (hsep : ∀ i < pts.length, ∀ j < pts.length, i ≠ j →
      eps ^ 2 < sqDist (pts.getD i (0, 0)) (pts.getD j (0, 0)))
    (hmin : 1 < minPts) (st : List PLabel × ℕ) (i : ℕ) (hi : i < pts.length)
    (h : AllFree st) : AllFree (dbscanStep pts eps minPts st i) := by
  unfold dbscanStep
  by_cases hg : st.1.getD i .unvisited = .unvisited
  · rw [if_pos hg]
    have hone : (rangeQuery pts eps (pts.getD i (0, 0))).length < minPts := by
      rw [rangeQuery_isolated hsep hi]
      simpa using hmin
    rw [if_pos hone]
    intro x hx
    rcases List.mem_or_eq_of_mem_set hx with hx' | rfl
    · exact h x hx'
    · exact Or.inr rfl
  · rw [if_neg hg]
    exact h

/-- C7: for every point set in which all pairwise Euclidean distances
are strictly greater than eps (equivalently, squared distances greater
than eps^2) and every minPts > 1, clustering yields a label mapping in
which every entry is -1: every point is noise. -/
theorem fit_predict_all_noise (pts : List Pt) (eps : ℚ) (minPts : ℕ)
    (hsep : ∀ i < pts.length, ∀ j < pts.length, i ≠ j →
      eps ^ 2 < sqDist (pts.getD i (0, 0)) (pts.getD j (0, 0)))
    (hmin : 1 < minPts) :
    ∀ l ∈ fit_predict pts eps minPts, l = -1 := by
  have hinv : AllFree ((List.range pts.length).foldl (dbscanStep pts eps minPts)
      (List.replicate pts.length .unvisited, 0)) := by
    apply foldl_inv_mem
    · intro x hx
      exact Or.inl (List.eq_of_mem_replicate hx)
    · intro st i hi hst
      exact dbscanStep_allFree hsep hmin st i (List.mem_range.mp hi) hst
  intro l hl
  obtain ⟨x, hx, hxl⟩ := List.mem_map.mp hl
  rcases hinv x hx with rfl | rfl
  · exact hxl.symm
  · exact hxl.symm

/-- Witness for C7: two points at Euclidean distance 10 with eps = 1
and minPts = 2 — both come out as noise. -/
theorem fit_predict_all_noise_witness :
    (∀ i < ([((0 : ℚ), (0 : ℚ)), (10, 0)] : List Pt).length,
      ∀ j < ([((0 : ℚ), (0 : ℚ)), (10, 0)] : List Pt).length, i ≠ j →
        (1 : ℚ) ^ 2 < sqDist (([((0 : ℚ), (0 : ℚ)), (10, 0)] : List Pt).getD i (0, 0))
          (([((0 : ℚ), (0 : ℚ)), (10, 0)] : List Pt).getD j (0, 0))) ∧
    1 < 2 ∧
    ∀ l ∈ fit_predict [((0 : ℚ), (0 : ℚ)), (10, 0)] 1 2, l = -1 := by
  have hsep : ∀ i < ([((0 : ℚ), (0 : ℚ)), (10, 0)] : List Pt).length,
      ∀ j < ([((0 : ℚ), (0 : ℚ)), (10, 0)] : List Pt).length, i ≠ j →
        (1 : ℚ) ^ 2 < sqDist (([((0 : ℚ), (0 : ℚ)), (10, 0)] : List Pt).getD i (0, 0))
          (([((0 : ℚ), (0 : ℚ)), (10, 0)] : List Pt).getD j (0, 0)) := by
    intro i hi j hj hij
    simp only [List.length_cons, List.length_nil] at hi hj
    interval_cases i <;> interval_cases j <;> simp_all [sqDist]
  exact ⟨hsep, by decide, fit_predict_all_noise _ 1 2 hsep (by decide)⟩

end DBSCAN

namespace Subset

/-- A cuDF dataframe with an explicit row index: an ordered list of
(row id, row payload) pairs. `cudf.read_csv` indexes rows 0..n-1. -/
abbrev IndexedDF (α : Type) := List (ℕ × α)

/-- Boolean-mask row selection, `gdf[gdf[col] == 1]` or
`gdf.loc[gdf[col] == 1.0]`: keeps the matching rows in order, together
with their original row ids. -/
def filterRows {α : Type} (P : α → Bool) (gdf : IndexedDF α) : IndexedDF α :=
  gdf.filter (fun r => P r.2)

/-- The method `df.reset_index()`: the rows are re-indexed 0..m-1 and the old
index is kept, moved into the payload as a column. -/
def reset_index {α : Type} (df : IndexedDF α) : IndexedDF (ℕ × α) :=
  df.enum

/-- The method `df.reset_index(drop=True)`: the rows are re-indexed 0..m-1 and the
old index is dropped. -/
def reset_index_drop {α : Type} (df : IndexedDF α) : IndexedDF α :=
  (df.map Prod.snd).enum

/-- Cell 20 of `2-04_DBSCAN.ipynb`:
`infected_df = gdf.loc[gdf['infected'] == 1.0]` followed by the bare
statement `infected_df.reset_index(drop=True)`, whose result is never
assigned — so the dataframe that reaches `fit_predict` keeps the
original, generally non-contiguous, row ids. -/
def infected_df {α : Type} (P : α → Bool) (gdf : IndexedDF α) : IndexedDF α :=
  let inf := filterRows P gdf
  let _discarded := reset_index_drop inf
  inf

/-- The solution cell of `2-04_DBSCAN.ipynb`:
`infected_df = gdf[gdf['infected'] == 1].reset_index()`, which does
assign the re-indexed dataframe. -/
def infected_df_solution {α : Type} (P : α → Bool) (gdf : IndexedDF α) :
    IndexedDF (ℕ × α) :=
  reset_index (filterRows P gdf)

/-- The solution cell's subset is always contiguously re-indexed from
0, as the spec's point-subset reader contract demands. -/
theorem infected_df_solution_reindexed {α : Type} (P : α → Bool)
    (gdf : IndexedDF α) :
    (infected_df_solution P gdf).map Prod.fst
      = List.range (filterRows P gdf).length :=
  List.enum_map_fst _

/-- C9 (code bug): on the dataset with row ids [0, 1] in which only row
1 is infected, the subset built by cell 20 of `2-04_DBSCAN.ipynb` keeps
the original row id 1 — not the contiguous re-index [0] that the claim
(and the spec's point-subset reader contract) demands — because the
cell calls `reset_index(drop=True)` without assigning its result. The
notebook's own solution cell, which assigns `reset_index()`, produces
the contiguous index [0] on the same input. -/
theorem infected_df_not_reindexed :
    (infected_df (fun b => b) [(0, false), (1, true)]).map Prod.fst = [1] ∧
    (infected_df (fun b => b) [(0, false), (1, true)]).map Prod.fst ≠ [0] ∧
    (infected_df_solution (fun b => b) [(0, false), (1, true)]).map Prod.fst = [0] :=
  ⟨rfl, by decide, rfl⟩

end Subset
